import Mathlib

/-!
Verification of the semantic retrieval engine of the IslamQA knowledge-base
service, as implemented in `app/services/ml_service.py` and
`app/services/knowledge_service.py`.  Python dictionaries holding search
candidates are modelled as structures, float scores as rationals, database
and model calls as explicit parameters, and exceptions as `Except` values.
-/

/-! ### Text preprocessing (`TextPreprocessor`, ml_service.py lines 42-134) -/

/-- A character of the Unicode Arabic block, exactly the test
`'؀' <= char <= 'ۿ'` in `TextPreprocessor.detect_language`. -/
def isArabicChar (c : Char) : Bool :=
  0x600 ≤ c.toNat && c.toNat ≤ 0x6FF

/-- Model of Python's `str.isalpha` on the character ranges this corpus uses:
ASCII letters plus the letter ranges of the Arabic block. -/
def pyIsAlpha (c : Char) : Bool :=
  c.isAlpha || (0x620 ≤ c.toNat && c.toNat ≤ 0x64A) || (0x66E ≤ c.toNat && c.toNat ≤ 0x6D3)

/-- Number of Arabic-block characters of a string (`arabic_chars` in the source). -/
def arabicCharCount (t : String) : ℕ :=
  (t.toList.filter isArabicChar).length

/-- Number of alphabetic characters of a string (`total_chars` in the source). -/
def alphaCharCount (t : String) : ℕ :=
  (t.toList.filter pyIsAlpha).length

/-- `TextPreprocessor.detect_language` (ml_service.py lines 88-100): empty text
is English; no alphabetic characters is English; otherwise Arabic exactly when
the ratio of Arabic-block characters to alphabetic characters exceeds 0.3. -/
def detect_language (text : String) : String :=
  if text = "" then "en"
  else if alphaCharCount text = 0 then "en"
  else if (3 : ℚ) / 10 < (arabicCharCount text : ℚ) / (alphaCharCount text : ℚ) then "ar"
  else "en"

/-! ### Search candidates and fusion (`AdvancedSearch`, knowledge_service.py) -/

/-- One search-result dictionary of `AdvancedSearch`: its `question_id`,
`relevance_score` and `search_method` keys (the fields fusion reads). -/
structure SCand where
  qid : String
  score : ℚ
  method : String
deriving DecidableEq

/-- One step of the `unique_results` dictionary update inside
`AdvancedSearch._deduplicate_and_score` (knowledge_service.py lines 326-344):
a known `question_id` keeps the maximum score and concatenates the method
tags, a new one is appended. -/
def dedupStep (acc : List SCand) (r : SCand) : List SCand :=
  if r.qid ∈ acc.map SCand.qid then
    acc.map (fun c =>
      if c.qid = r.qid then ⟨c.qid, max c.score r.score, c.method ++ "," ++ r.method⟩ else c)
  else acc ++ [r]

/-- `AdvancedSearch._deduplicate_and_score`: fold the candidate list through
the dictionary update; the output order is first-occurrence order, as for a
Python dict. -/
def deduplicate_and_score (rs : List SCand) : List SCand :=
  rs.foldl dedupStep []

/-- Comma-joining of method tags, as produced by the repeated
`f"{existing},{new}"` updates in `_deduplicate_and_score`. -/
def joinComma : List String → String
  | [] => ""
  | [m] => m
  | m :: n :: ms => m ++ "," ++ joinComma (n :: ms)

/-- The occurrences of one `question_id` in a candidate list. -/
def occFor (id : String) (rs : List SCand) : List SCand :=
  rs.filter (fun c => c.qid = id)

/-- Maximum score over the occurrences of one `question_id` (the value the
repeated `max` updates compute). -/
def maxScoreFor (id : String) (rs : List SCand) : ℚ :=
  match occFor id rs with
  | [] => 0
  | c :: cs => (cs.map SCand.score).foldl max c.score

/-- Comma-joined method tags over the occurrences of one `question_id`. -/
def methodsFor (id : String) (rs : List SCand) : String :=
  joinComma ((occFor id rs).map SCand.method)

/-- Accumulating the `question_id`s in first-occurrence order (the key order
of the `unique_results` dict). -/
def firstIdsStep (acc : List String) (r : SCand) : List String :=
  if r.qid ∈ acc then acc else acc ++ [r.qid]

/-- The `question_id`s of a candidate list in first-occurrence order. -/
def firstIds (rs : List SCand) : List String :=
  rs.foldl firstIdsStep []

/-- Closed form of `_deduplicate_and_score`: one entry per first-occurring id,
carrying the maximal score and the joined method tags. -/
def dedupSpecOf (rs : List SCand) : List SCand :=
  (firstIds rs).map (fun id => ⟨id, maxScoreFor id rs, methodsFor id rs⟩)

theorem mem_foldl_firstIdsStep (rs : List SCand) :
    ∀ (acc : List String) (x : String),
      x ∈ rs.foldl firstIdsStep acc ↔ x ∈ acc ∨ x ∈ rs.map SCand.qid := by
  induction rs with
  | nil => intro acc x; simp
  | cons r rs ih =>
    intro acc x
    rw [List.foldl_cons, ih]
    unfold firstIdsStep
    by_cases h : r.qid ∈ acc
    · rw [if_pos h]
      simp only [List.map_cons, List.mem_cons]
      constructor
      · rintro (hx | hx)
        · exact Or.inl hx
        · exact Or.inr (Or.inr hx)
      · rintro (hx | hx | hx)
        · exact Or.inl hx
        · exact Or.inl (hx ▸ h)
        · exact Or.inr hx
    · rw [if_neg h]
      simp only [List.mem_append, List.mem_singleton, List.map_cons, List.mem_cons]
      tauto

theorem mem_firstIds (rs : List SCand) (x : String) :
    x ∈ firstIds rs ↔ x ∈ rs.map SCand.qid := by
  simpa using mem_foldl_firstIdsStep rs [] x

theorem nodup_foldl_firstIdsStep (rs : List SCand) :
    ∀ acc : List String, acc.Nodup → (rs.foldl firstIdsStep acc).Nodup := by
  induction rs with
  | nil => intro acc h; simpa using h
  | cons r rs ih =>
    intro acc h
    rw [List.foldl_cons]
    apply ih
    unfold firstIdsStep
    by_cases hmem : r.qid ∈ acc
    · rwa [if_pos hmem]
    · rw [if_neg hmem]
      simp [List.nodup_append, h, hmem]

theorem nodup_firstIds (rs : List SCand) : (firstIds rs).Nodup :=
  nodup_foldl_firstIdsStep rs [] List.nodup_nil

theorem firstIds_snoc (pre : List SCand) (r : SCand) :
    firstIds (pre ++ [r]) = firstIdsStep (firstIds pre) r := by
  simp [firstIds, List.foldl_append]

theorem occFor_snoc (id : String) (pre : List SCand) (r : SCand) :
    occFor id (pre ++ [r]) = occFor id pre ++ if r.qid = id then [r] else [] := by
  simp only [occFor, List.filter_append]
  congr 1
  by_cases h : r.qid = id
  · simp [h]
  · simp [h]

theorem occFor_eq_nil_iff (id : String) (rs : List SCand) :
    occFor id rs = [] ↔ id ∉ rs.map SCand.qid := by
  rw [occFor, List.filter_eq_nil_iff]
  simp only [List.mem_map, not_exists, decide_eq_true_eq]
  constructor
  · intro h x hx
    exact h x hx.1 hx.2
  · intro h a ha hq
    exact h a ⟨ha, hq⟩

theorem mem_occFor (id : String) (rs : List SCand) (c : SCand) (hc : c ∈ occFor id rs) :
    c ∈ rs ∧ c.qid = id := by
  have h := List.mem_filter.mp hc
  exact ⟨h.1, by simpa using h.2⟩

theorem occFor_mem_of_mem (id : String) (rs : List SCand) (d : SCand)
    (hd : d ∈ rs) (hq : d.qid = id) : d ∈ occFor id rs :=
  List.mem_filter.mpr ⟨hd, by simpa using hq⟩

theorem joinComma_snoc : ∀ (xs : List String) (y : String),
    joinComma (xs ++ [y]) = if xs = [] then y else joinComma xs ++ "," ++ y := by
  intro xs
  induction xs with
  | nil => intro y; simp [joinComma]
  | cons x xs ih =>
    intro y
    cases xs with
    | nil => simp [joinComma]
    | cons x2 xs2 =>
      have h2 : joinComma ((x2 :: xs2) ++ [y]) = joinComma (x2 :: xs2) ++ "," ++ y := by
        rw [ih y]; simp
      simp only [List.cons_append, joinComma, List.append_eq] at h2 ⊢
      rw [h2]
      simp [String.append_assoc]

theorem maxScoreFor_snoc_ne (id : String) (pre : List SCand) (r : SCand) (h : r.qid ≠ id) :
    maxScoreFor id (pre ++ [r]) = maxScoreFor id pre := by
  unfold maxScoreFor
  rw [occFor_snoc, if_neg h, List.append_nil]

theorem methodsFor_snoc_ne (id : String) (pre : List SCand) (r : SCand) (h : r.qid ≠ id) :
    methodsFor id (pre ++ [r]) = methodsFor id pre := by
  unfold methodsFor
  rw [occFor_snoc, if_neg h, List.append_nil]

theorem maxScoreFor_snoc_self_nil (pre : List SCand) (r : SCand)
    (h : occFor r.qid pre = []) : maxScoreFor r.qid (pre ++ [r]) = r.score := by
  unfold maxScoreFor
  rw [occFor_snoc, if_pos rfl, h, List.nil_append]
  rfl

theorem methodsFor_snoc_self_nil (pre : List SCand) (r : SCand)
    (h : occFor r.qid pre = []) : methodsFor r.qid (pre ++ [r]) = r.method := by
  unfold methodsFor
  rw [occFor_snoc, if_pos rfl, h, List.nil_append]
  rfl

theorem maxScoreFor_snoc_self_cons (pre : List SCand) (r c : SCand) (cs : List SCand)
    (h : occFor r.qid pre = c :: cs) :
    maxScoreFor r.qid (pre ++ [r]) = max (maxScoreFor r.qid pre) r.score := by
  unfold maxScoreFor
  rw [occFor_snoc, if_pos rfl, h]
  simp only [List.cons_append, List.map_append, List.foldl_append]
  rfl

theorem methodsFor_snoc_self_cons (pre : List SCand) (r c : SCand) (cs : List SCand)
    (h : occFor r.qid pre = c :: cs) :
    methodsFor r.qid (pre ++ [r]) = methodsFor r.qid pre ++ "," ++ r.method := by
  unfold methodsFor
  rw [occFor_snoc, if_pos rfl, h, List.map_append,
    show List.map SCand.method [r] = [r.method] from rfl, joinComma_snoc]
  rw [if_neg (by simp)]

theorem map_qid_dedupSpecOf (rs : List SCand) :
    (dedupSpecOf rs).map SCand.qid = firstIds rs := by
  rw [dedupSpecOf, List.map_map]
  exact List.map_id _

theorem dedupStep_dedupSpecOf (pre : List SCand) (r : SCand) :
    dedupStep (dedupSpecOf pre) r = dedupSpecOf (pre ++ [r]) := by
  have hids := map_qid_dedupSpecOf pre
  by_cases hmem : r.qid ∈ firstIds pre
  · have hcond : r.qid ∈ (dedupSpecOf pre).map SCand.qid := by rw [hids]; exact hmem
    have hocc : occFor r.qid pre ≠ [] := by
      intro hnil
      exact (occFor_eq_nil_iff _ _ |>.mp hnil) ((mem_firstIds pre r.qid).mp hmem)
    obtain ⟨c, cs, hcs⟩ : ∃ c cs, occFor r.qid pre = c :: cs := by
      cases hcc : occFor r.qid pre with
      | nil => exact absurd hcc hocc
      | cons a l => exact ⟨a, l, rfl⟩
    rw [dedupStep, if_pos hcond]
    rw [dedupSpecOf, dedupSpecOf, firstIds_snoc, firstIdsStep, if_pos hmem, List.map_map]
    apply List.map_congr_left
    intro id hid
    by_cases hidr : id = r.qid
    · subst hidr
      simp [maxScoreFor_snoc_self_cons pre r c cs hcs, methodsFor_snoc_self_cons pre r c cs hcs]
    · have hne : r.qid ≠ id := fun he => hidr he.symm
      simp [hidr, maxScoreFor_snoc_ne id pre r hne, methodsFor_snoc_ne id pre r hne]
  · have hcond : r.qid ∉ (dedupSpecOf pre).map SCand.qid := by rw [hids]; exact hmem
    have hocc : occFor r.qid pre = [] :=
      (occFor_eq_nil_iff _ _).mpr (fun hin => hmem ((mem_firstIds pre r.qid).mpr hin))
    rw [dedupStep, if_neg hcond]
    rw [dedupSpecOf, dedupSpecOf, firstIds_snoc, firstIdsStep, if_neg hmem, List.map_append]
    congr 1
    · apply List.map_congr_left
      intro id hid
      have hne : r.qid ≠ id := fun he => hmem (he ▸ hid)
      rw [maxScoreFor_snoc_ne id pre r hne, methodsFor_snoc_ne id pre r hne]
    · simp only [List.map_cons, List.map_nil]
      rw [maxScoreFor_snoc_self_nil pre r hocc, methodsFor_snoc_self_nil pre r hocc]

theorem foldl_dedupStep_spec : ∀ (rest pre : List SCand),
    List.foldl dedupStep (dedupSpecOf pre) rest = dedupSpecOf (pre ++ rest) := by
  intro rest
  induction rest with
  | nil => intro pre; simp
  | cons r rest ih =>
    intro pre
    rw [List.foldl_cons, dedupStep_dedupSpecOf, ih (pre ++ [r])]
    simp [List.append_assoc]

theorem deduplicate_and_score_eq (rs : List SCand) :
    deduplicate_and_score rs = dedupSpecOf rs := by
  have h := foldl_dedupStep_spec rs []
  have h0 : dedupSpecOf ([] : List SCand) = [] := rfl
  rw [h0] at h
  simpa [deduplicate_and_score] using h

theorem foldl_max_eq_or_mem : ∀ (l : List ℚ) (a : ℚ), l.foldl max a = a ∨ l.foldl max a ∈ l := by
  intro l
  induction l with
  | nil => intro a; left; rfl
  | cons x l ih =>
    intro a
    rw [List.foldl_cons]
    rcases ih (max a x) with h | h
    · rw [h]
      rcases max_choice a x with h2 | h2
      · left; exact h2
      · right; rw [h2]; exact List.mem_cons_self _ _
    · right; exact List.mem_cons_of_mem _ h

theorem le_foldl_max_init : ∀ (l : List ℚ) (a : ℚ), a ≤ l.foldl max a := by
  intro l
  induction l with
  | nil => intro a; exact le_refl a
  | cons x l ih =>
    intro a
    rw [List.foldl_cons]
    exact le_trans (le_max_left a x) (ih (max a x))

theorem le_foldl_max_mem : ∀ (l : List ℚ) (a x : ℚ), x ∈ l → x ≤ l.foldl max a := by
  intro l
  induction l with
  | nil => intro a x h; simp at h
  | cons y l ih =>
    intro a x h
    rw [List.foldl_cons]
    rcases List.mem_cons.mp h with h | h
    · subst h
      exact le_trans (le_max_right a x) (le_foldl_max_init l (max a x))
    · exact ih (max a y) x h

theorem maxScoreFor_attained (id : String) (rs : List SCand) (h : occFor id rs ≠ []) :
    ∃ d ∈ rs, d.qid = id ∧ d.score = maxScoreFor id rs := by
  cases hocc : occFor id rs with
  | nil => exact absurd hocc h
  | cons c cs =>
    have hval : maxScoreFor id rs = (cs.map SCand.score).foldl max c.score := by
      unfold maxScoreFor; rw [hocc]
    rcases foldl_max_eq_or_mem (cs.map SCand.score) c.score with he | he
    · have hc := mem_occFor id rs c (hocc ▸ List.mem_cons_self c cs)
      exact ⟨c, hc.1, hc.2, by rw [hval, he]⟩
    · obtain ⟨d, hd, hds⟩ := List.mem_map.mp he
      have hdo := mem_occFor id rs d (hocc ▸ List.mem_cons_of_mem c hd)
      exact ⟨d, hdo.1, hdo.2, by rw [hval, hds]⟩

theorem le_maxScoreFor (id : String) (rs : List SCand) (d : SCand)
    (hd : d ∈ rs) (hq : d.qid = id) : d.score ≤ maxScoreFor id rs := by
  have hdo : d ∈ occFor id rs := occFor_mem_of_mem id rs d hd hq
  cases hocc : occFor id rs with
  | nil => rw [hocc] at hdo; simp at hdo
  | cons c cs =>
    have hval : maxScoreFor id rs = (cs.map SCand.score).foldl max c.score := by
      unfold maxScoreFor; rw [hocc]
    rw [hocc] at hdo
    rw [hval]
    rcases List.mem_cons.mp hdo with h | h
    · rw [h]; exact le_foldl_max_init _ _
    · exact le_foldl_max_mem _ _ _ (List.mem_map_of_mem _ h)

theorem mem_dedupSpecOf (rs : List SCand) (c : SCand) (hc : c ∈ dedupSpecOf rs) :
    c.qid ∈ rs.map SCand.qid ∧ c.score = maxScoreFor c.qid rs ∧ c.method = methodsFor c.qid rs := by
  rw [dedupSpecOf] at hc
  obtain ⟨id, hid, he⟩ := List.mem_map.mp hc
  subst he
  exact ⟨(mem_firstIds rs id).mp hid, rfl, rfl⟩

/-- One step of `KnowledgeService._deduplicate_results` (knowledge_service.py
lines 619-630): keep the first occurrence of each truthy `question_id`, drop
later duplicates and falsy ids;  `seen` is the already-seen id set. -/
def dedupResultsAux : List SCand → List String → List SCand
  | [], _ => []
  | r :: rs, seen =>
    if r.qid = "" then dedupResultsAux rs seen
    else if r.qid ∈ seen then dedupResultsAux rs seen
    else r :: dedupResultsAux rs (r.qid :: seen)

/-- `KnowledgeService._deduplicate_results`. -/
def deduplicate_results (rs : List SCand) : List SCand :=
  dedupResultsAux rs []

theorem dedupResultsAux_nodup : ∀ (rs : List SCand) (seen : List String),
    ((dedupResultsAux rs seen).map SCand.qid).Nodup ∧
    ∀ x ∈ (dedupResultsAux rs seen).map SCand.qid, x ∉ seen := by
  intro rs
  induction rs with
  | nil => intro seen; exact ⟨by simp [dedupResultsAux], by simp [dedupResultsAux]⟩
  | cons r rs ih =>
    intro seen
    by_cases h1 : r.qid = ""
    · simpa [dedupResultsAux, h1] using ih seen
    · by_cases h2 : r.qid ∈ seen
      · simpa [dedupResultsAux, h1, h2] using ih seen
      · have ihh := ih (r.qid :: seen)
        constructor
        · simp only [dedupResultsAux, if_neg h1, if_neg h2, List.map_cons, List.nodup_cons]
          refine ⟨fun hmem => ?_, ihh.1⟩
          exact (ihh.2 r.qid hmem) (List.mem_cons_self _ _)
        · intro x hx
          simp only [dedupResultsAux, if_neg h1, if_neg h2, List.map_cons,
            List.mem_cons] at hx
          rcases hx with hx | hx
          · exact hx ▸ h2
          · exact fun hs => (ihh.2 x hx) (List.mem_cons_of_mem _ hs)

/-- C1: after `_deduplicate_and_score` fuses the keyword, embedding and
full-text candidate lists, every `question_id` appears at most once; each
fused record's score is attained by one of its per-strategy scores and is an
upper bound of all of them (i.e. it is their maximum), and its method tag is
the comma-joined concatenation of its per-strategy tags; moreover
`_deduplicate_results` also never repeats a `question_id`. -/
theorem C1_fusion_dedup_max_concat (rs : List SCand) :
    ((deduplicate_and_score rs).map SCand.qid).Nodup ∧
    (∀ c ∈ deduplicate_and_score rs,
      (∃ d ∈ rs, d.qid = c.qid ∧ d.score = c.score) ∧
      (∀ d ∈ rs, d.qid = c.qid → d.score ≤ c.score) ∧
      c.method = methodsFor c.qid rs) ∧
    ∀ ms : List SCand, ((deduplicate_results ms).map SCand.qid).Nodup := by
  refine ⟨?_, ?_, ?_⟩
  · rw [deduplicate_and_score_eq, map_qid_dedupSpecOf]
    exact nodup_firstIds rs
  · intro c hc
    rw [deduplicate_and_score_eq] at hc
    obtain ⟨hqid, hscore, hmeth⟩ := mem_dedupSpecOf rs c hc
    have hocc : occFor c.qid rs ≠ [] := fun hnil => (occFor_eq_nil_iff _ _ |>.mp hnil) hqid
    obtain ⟨d, hd, hdq, hds⟩ := maxScoreFor_attained c.qid rs hocc
    exact ⟨⟨d, hd, hdq, by rw [hds, hscore]⟩,
      fun d2 hd2 hq2 => by rw [hscore]; exact le_maxScoreFor c.qid rs d2 hd2 hq2, hmeth⟩
  · intro ms
    exact (dedupResultsAux_nodup ms []).1

/-- Witness for C1 at a concrete fused list: the two strategy hits for id
`"a"` collapse to one entry whose score dominates both inputs. -/
theorem C1_witness :
    ((deduplicate_and_score
        [⟨"a", (1 : ℚ)/2, "keyword"⟩, ⟨"a", (3 : ℚ)/4, "fulltext"⟩]).map SCand.qid).Nodup ∧
    ((⟨"a", (1 : ℚ)/2, "keyword"⟩ : SCand)).score
      ≤ ((⟨"a", (3 : ℚ)/4, "keyword,fulltext"⟩ : SCand)).score := by
  have hcomp : deduplicate_and_score
      [⟨"a", (1 : ℚ)/2, "keyword"⟩, ⟨"a", (3 : ℚ)/4, "fulltext"⟩]
      = [⟨"a", (3 : ℚ)/4, "keyword,fulltext"⟩] := by
    simp [deduplicate_and_score, dedupStep]
    norm_num
  obtain ⟨h1, h2, _⟩ := C1_fusion_dedup_max_concat
    [⟨"a", (1 : ℚ)/2, "keyword"⟩, ⟨"a", (3 : ℚ)/4, "fulltext"⟩]
  refine ⟨h1, ?_⟩
  exact (h2 ⟨"a", (3 : ℚ)/4, "keyword,fulltext"⟩ (by rw [hcomp]; simp)).2.1
    ⟨"a", (1 : ℚ)/2, "keyword"⟩ (by simp) rfl

/-- C6: `detect_language` is a pure function of its input returning only
`"ar"` or `"en"`: it returns `"ar"` exactly when the text has at least one
alphabetic character and the Arabic-to-alphabetic ratio exceeds 0.3
(equivalently `3 * alpha < 10 * arabic`), and `"en"` otherwise; empty or
non-alphabetic text yields `"en"`. -/
theorem C6_detect_language (t : String) :
    detect_language t =
      if alphaCharCount t ≠ 0 ∧ 3 * alphaCharCount t < 10 * arabicCharCount t then "ar"
      else "en" := by
  unfold detect_language
  by_cases h0 : t = ""
  · subst h0
    have hz : alphaCharCount "" = 0 := rfl
    simp [hz]
  · rw [if_neg h0]
    by_cases ha : alphaCharCount t = 0
    · simp [ha]
    · rw [if_neg ha]
      have hpos : (0 : ℚ) < (alphaCharCount t : ℚ) := by
        exact_mod_cast Nat.pos_of_ne_zero ha
      have hdiv : ((3 : ℚ) / 10 < (arabicCharCount t : ℚ) / (alphaCharCount t : ℚ))
          ↔ 3 * alphaCharCount t < 10 * arabicCharCount t := by
        rw [div_lt_div_iff (by norm_num : (0 : ℚ) < 10) hpos]
        constructor
        · intro h
          have h2 : ((3 * alphaCharCount t : ℕ) : ℚ) < ((10 * arabicCharCount t : ℕ) : ℚ) := by
            push_cast
            linarith
          exact_mod_cast h2
        · intro h
          have h2 : ((3 * alphaCharCount t : ℕ) : ℚ) < ((10 * arabicCharCount t : ℕ) : ℚ) := by
            exact_mod_cast h
          push_cast at h2
          linarith
      by_cases hr : (3 : ℚ) / 10 < (arabicCharCount t : ℚ) / (alphaCharCount t : ℚ)
      · rw [if_pos hr, if_pos ⟨ha, hdiv.mp hr⟩]
      · rw [if_neg hr, if_neg (fun hc => hr (hdiv.mpr hc.2))]

/-! ### Sorting (`AdvancedSearch._sort_results`, knowledge_service.py lines 346-354) -/

/-- `AdvancedSearch._sort_results`: for `sort_by == 'relevance'`,
`sorted(results, key=lambda x: x['relevance_score'], reverse=True)` — a
stable descending sort by score, modelled as insertion sort under the total
preorder "has at least the score of"; other `sort_by` values return the
input unchanged. -/
def sort_results (rs : List SCand) (sortBy : String) : List SCand :=
  if sortBy = "relevance" then List.insertionSort (fun a b => b.score ≤ a.score) rs
  else rs

instance : IsTotal SCand (fun a b => b.score ≤ a.score) :=
  ⟨fun a b => le_total b.score a.score⟩

instance : IsTrans SCand (fun a b => b.score ≤ a.score) :=
  ⟨fun _ _ _ h1 h2 => le_trans h2 h1⟩

theorem insertionSort_const_score : ∀ (rs : List SCand) (k : ℚ), (∀ c ∈ rs, c.score = k) →
    List.insertionSort (fun a b => b.score ≤ a.score) rs = rs := by
  intro rs
  induction rs with
  | nil => intro k _; rfl
  | cons a l ih =>
    intro k h
    rw [List.insertionSort, ih k (fun c hc => h c (List.mem_cons_of_mem _ hc))]
    cases l with
    | nil => rfl
    | cons b bs =>
      have hab : b.score ≤ a.score := by
        rw [h a (List.mem_cons_self _ _), h b (List.mem_cons_of_mem _ (List.mem_cons_self _ _))]
      exact List.orderedInsert_of_le _ _ hab

/-- C2 counterexample: three candidates with equal relevance scores and
record ids `"2"`, `"1"`, `"3"` keep their input order through
`_sort_results`; the output id order `2, 1, 3` is neither ascending nor
descending by `record_id`, so no record-id tie-break happens. -/
theorem C2_counterexample :
    sort_results [⟨"2", (1 : ℚ)/2, "keyword"⟩, ⟨"1", (1 : ℚ)/2, "fulltext"⟩,
        ⟨"3", (1 : ℚ)/2, "keyword"⟩] "relevance"
      = [⟨"2", (1 : ℚ)/2, "keyword"⟩, ⟨"1", (1 : ℚ)/2, "fulltext"⟩,
        ⟨"3", (1 : ℚ)/2, "keyword"⟩] ∧
    ("1" : String) < "2" ∧ ("2" : String) < "3" := by
  refine ⟨?_, ?_, ?_⟩
  · norm_num [sort_results, List.insertionSort, List.orderedInsert]
  · rw [String.lt_iff_toList_lt]
    decide
  · rw [String.lt_iff_toList_lt]
    decide

/-- C2 amended: `_sort_results` sorts by score in non-increasing order and
permutes its input, and ties keep the input candidate order (stable sort) —
there is no tie-break by `record_id`; the ranking is deterministic only given
the input candidate order. -/
theorem C2_sort_descending_stable (rs : List SCand) :
    (sort_results rs "relevance").Perm rs ∧
    List.Sorted (fun a b : SCand => b.score ≤ a.score) (sort_results rs "relevance") ∧
    ∀ k : ℚ, (∀ c ∈ rs, c.score = k) → sort_results rs "relevance" = rs := by
  refine ⟨?_, ?_, ?_⟩
  · unfold sort_results
    rw [if_pos rfl]
    exact List.perm_insertionSort _ rs
  · unfold sort_results
    rw [if_pos rfl]
    exact List.sorted_insertionSort _ rs
  · intro k h
    unfold sort_results
    rw [if_pos rfl]
    exact insertionSort_const_score rs k h

/-- Witness for the amended C2 at a concrete equal-score list: the stable
sort returns it unchanged. -/
theorem C2_sort_descending_stable_witness :
    sort_results [⟨"2", (1 : ℚ)/2, "keyword"⟩, ⟨"1", (1 : ℚ)/2, "fulltext"⟩] "relevance"
      = [⟨"2", (1 : ℚ)/2, "keyword"⟩, ⟨"1", (1 : ℚ)/2, "fulltext"⟩] :=
  (C2_sort_descending_stable _).2.2 ((1 : ℚ)/2) (by simp)

/-! ### ML service (`ml_service.py`): embeddings, similarity index, scoring -/

/-- Python's case-sensitive substring test `needle in hay`. -/
def pyContains (hay needle : String) : Bool :=
  (hay.toList.tails).any (fun t => needle.toList.isPrefixOf t)

/-- Python's `str.lower()`, character-wise. -/
def pyLower (s : String) : String :=
  ⟨s.toList.map Char.toLower⟩

/-- Helper for Python's `str.split()`: split a character list on runs of
whitespace, producing no empty words; `cur` is the reversed current word. -/
def splitWordsAux : List Char → List Char → List (List Char)
  | [], cur => if cur = [] then [] else [cur.reverse]
  | c :: rest, cur =>
    if c.isWhitespace then
      if cur = [] then splitWordsAux rest []
      else cur.reverse :: splitWordsAux rest []
    else splitWordsAux rest (c :: cur)

/-- `len(s.split())` in Python: the number of whitespace-separated words. -/
def pyWordCount (s : String) : ℕ :=
  (splitWordsAux s.toList []).length

/-- One similarity-search result dictionary of `MLService`: the
`question_id`, `similarity_score`, `source_name`, `answer` and `final_score`
keys that `_calculate_final_scores` reads and writes. -/
structure MLCand where
  qid : String
  sim : ℚ
  source : String
  answer : String
  final : ℚ
deriving DecidableEq

/-- The source-reliability factor of `MLService._calculate_final_scores`
(ml_service.py lines 542-547): 1.1 for sources containing `islamqa`, else
1.15 for sources containing `dar al-ifta`, else 1.0. -/
def sourceFactor (source : String) : ℚ :=
  if pyContains (pyLower source) "islamqa" then 11/10
  else if pyContains (pyLower source) "dar al-ifta" then 23/20
  else 1

/-- The answer-length-similarity factor of `_calculate_final_scores`
(ml_service.py lines 549-553): `0.8 + 0.4 * (min(qw, aw) / max(qw, aw))`
over the word counts of the query and the answer.  When both counts are zero
Python raises `ZeroDivisionError` (caught by `process_question`); in ℚ the
division yields 0. -/
def lengthFactor (query answer : String) : ℚ :=
  4/5 + 2/5 * ((min (pyWordCount query) (pyWordCount answer) : ℚ)
    / (max (pyWordCount query) (pyWordCount answer) : ℚ))

/-- The combined final score `base * source_factor * length_factor`
(ml_service.py line 556). -/
def mlFinalScore (query : String) (c : MLCand) : ℚ :=
  c.sim * sourceFactor c.source * lengthFactor query c.answer

instance : IsTotal MLCand (fun a b => b.final ≤ a.final) :=
  ⟨fun a b => le_total b.final a.final⟩

instance : IsTrans MLCand (fun a b => b.final ≤ a.final) :=
  ⟨fun _ _ _ h1 h2 => le_trans h2 h1⟩

/-- `MLService._calculate_final_scores` (ml_service.py lines 532-568): write
`final_score` for every candidate, then `sort(key=lambda x: x['final_score'],
reverse=True)` — a stable descending sort. -/
def calculate_final_scores (query : String) (cands : List MLCand) : List MLCand :=
  List.insertionSort (fun a b => b.final ≤ a.final)
    (cands.map (fun c => { c with final := mlFinalScore query c }))

/-- The persisted FAISS state: the vector matrix (`faiss_index.bin`) and the
parallel id list (`question_ids.pkl`). -/
structure Stored where
  vectors : List (List ℚ)
  ids : List String
deriving DecidableEq

/-- Inner product; on the L2-normalized vectors FAISS stores this is the
cosine similarity. -/
def dot (a b : List ℚ) : ℚ :=
  (List.zipWith (· * ·) a b).sum

instance : IsTotal (ℚ × ℕ) (fun x y => y.1 ≤ x.1) :=
  ⟨fun a b => le_total b.1 a.1⟩

instance : IsTrans (ℚ × ℕ) (fun x y => y.1 ≤ x.1) :=
  ⟨fun _ _ _ h1 h2 => le_trans h2 h1⟩

/-- `faiss.IndexFlatIP.search`: similarities of the query against every
stored vector, sorted by descending similarity (ties by insertion position),
truncated to `k` entries, each paired with its vector position. -/
def faissSearch (vecs : List (List ℚ)) (q : List ℚ) (k : ℕ) : List (ℚ × ℕ) :=
  (List.insertionSort (fun x y : ℚ × ℕ => y.1 ≤ x.1)
    (vecs.enum.map (fun p => (dot q p.2, p.1)))).take k

/-- `min_similarity = min_similarity or settings.MIN_SIMILARITY_SCORE`
(ml_service.py line 301): `None` and falsy `0.0` both fall back to the
configured default 0.7. -/
def resolveMinSim (m : Option ℚ) : ℚ :=
  match m with
  | none => 7/10
  | some v => if v = 0 then 7/10 else v

/-- The result loop of `VectorEmbeddings.find_similar_questions`
(ml_service.py lines 318-351): skip hits below `min_similarity`, skip
positions not backed by the id list, skip ids missing from the database,
append the rest and stop once `top_k` results are collected. -/
def collectHits (db : String → Bool) (ids : List String) (minSim : ℚ) (topK : ℕ) :
    List (ℚ × ℕ) → List (String × ℚ) → List (String × ℚ)
  | [], acc => acc
  | (s, i) :: rest, acc =>
    if s < minSim then collectHits db ids minSim topK rest acc
    else if h : i < ids.length then
      if db (ids.get ⟨i, h⟩) then
        if topK ≤ (acc ++ [(ids.get ⟨i, h⟩, s)]).length then acc ++ [(ids.get ⟨i, h⟩, s)]
        else collectHits db ids minSim topK rest (acc ++ [(ids.get ⟨i, h⟩, s)])
      else collectHits db ids minSim topK rest acc
    else collectHits db ids minSim topK rest acc

/-- `VectorEmbeddings.find_similar_questions` on the FAISS path (ml_service.py
lines 291-355): search `top_k * 2` candidates, then filter and truncate.
`db` tells which question ids the database can hydrate. -/
def find_similar_questions (db : String → Bool) (st : Stored) (qv : List ℚ)
    (mOpt : Option ℚ) (topK : ℕ) : List (String × ℚ) :=
  collectHits db st.ids (resolveMinSim mOpt) topK (faissSearch st.vectors qv (topK * 2)) []

/-- `VectorEmbeddings.build_faiss_index` (ml_service.py lines 220-289): with
`force_rebuild` false and readable persisted files the stored index is
accepted as-is (no validation of the id-list length against the vector
count); otherwise it is rebuilt by embedding every corpus question, or left
absent when the corpus is empty.  `disk = none` models missing/unreadable
files (the only load failure the code reacts to). -/
def build_faiss_index (embed : String → List ℚ) (force : Bool) (disk : Option Stored)
    (corpus : List (String × String)) : Option Stored :=
  match force, disk with
  | false, some d => some d
  | _, _ =>
    if corpus.isEmpty then none
    else some ⟨corpus.map (fun p => embed p.2), corpus.map (fun p => p.1)⟩

/-- `VectorEmbeddings.get_sentence_embedding` (ml_service.py lines 190-194):
serve the transformer embedding when the model is loaded, otherwise fall back
to the TF-IDF vector — with no marker and no score adjustment. -/
def get_sentence_embedding (modelAvailable : Bool) (modelEmb fallbackEmb : List ℚ) : List ℚ :=
  if modelAvailable then modelEmb else fallbackEmb

/-- The embedding retrieval strategy end-to-end: the query embedding chosen
by `get_sentence_embedding` fed into `find_similar_questions`;
`modelAvailable = false` is degraded (fallback) mode. -/
def embeddingPipelineScores (modelAvailable : Bool) (modelEmb fallbackEmb : List ℚ)
    (db : String → Bool) (st : Stored) (mOpt : Option ℚ) (topK : ℕ) : List (String × ℚ) :=
  find_similar_questions db st (get_sentence_embedding modelAvailable modelEmb fallbackEmb)
    mOpt topK

/-- `MLService.get_question_suggestions` (ml_service.py lines 570-591):
inputs shorter than 3 characters yield `[]`; a database failure is caught and
yields `[]`; otherwise case-insensitive `ilike %pq%` matches limited to 10. -/
def get_question_suggestions (pq : String) (questions : List String) (dbFails : Bool) :
    List String :=
  if pq.length < 3 then []
  else if dbFails then []
  else (questions.filter (fun q => pyContains (pyLower q) (pyLower pq))).take 10

/-! ### Keyword index (`KnowledgeIndexer`, knowledge_service.py lines 28-120) -/

/-- `KnowledgeIndexer._extract_keywords` applied to the already-normalized
token list (`preprocess_text(text).split()`): keep tokens longer than 3
characters, limited to the first 20. -/
def extract_keywords (tokens : List String) : List String :=
  (tokens.filter (fun w => 3 < w.length)).take 20

/-- The id set `keyword_index[token]` built by `_build_keyword_index`: the
records whose extracted keywords contain the token.  `docs` pairs each record
id with its normalized question tokens. -/
def keywordIndexIds (docs : List (String × List String)) (token : String) : List String :=
  (docs.filter (fun d => token ∈ extract_keywords d.2)).map Prod.fst

/-- `KnowledgeIndexer.search_by_keywords` (knowledge_service.py lines
94-112): empty keyword list yields the empty set, otherwise the intersection
of the per-keyword (lower-cased) id sets. -/
def search_by_keywords (docs : List (String × List String)) (ks : List String) : List String :=
  match ks with
  | [] => []
  | k :: rest =>
    rest.foldl (fun acc k2 => acc.filter (fun id => id ∈ keywordIndexIds docs (pyLower k2)))
      (keywordIndexIds docs (pyLower k))

/-! ### Orchestration (`AdvancedSearch.search`, `KnowledgeService`) -/

/-- A retrieval strategy's own `try/except` (knowledge_service.py lines
166-217, 219-228, 230-286): an internal failure is logged and contributes an
empty candidate list instead of propagating. -/
def strategyCaught (o : Except String (List SCand)) : List SCand :=
  match o with
  | .ok l => l
  | .error _ => []

/-- `AdvancedSearch.search` (knowledge_service.py lines 130-164): run the
keyword, semantic and full-text strategies, concatenate their candidates,
fuse, sort and truncate. -/
def advanced_search (kw sem ft : Except String (List SCand)) (sortBy : String)
    (limit : ℕ) : List SCand :=
  (sort_results
    (deduplicate_and_score (strategyCaught kw ++ strategyCaught sem ++ strategyCaught ft))
    sortBy).take limit

/-- The well-formed response dictionary `KnowledgeService.search_knowledge_base`
always returns. -/
structure SearchResponse where
  query : String
  totalResults : ℕ
  results : List SCand
deriving DecidableEq

/-- `KnowledgeService.search_knowledge_base` (knowledge_service.py lines
389-434): up to `limit // 2` ML results (whose internal failure yields an
empty list), then advanced-search results up to the remaining limit,
deduplicated; always a structured response, never an exception. -/
def search_knowledge_base (query : String) (ml kw sem ft : Except String (List SCand))
    (limit : ℕ) : SearchResponse :=
  let mlRes := (strategyCaught ml).take (limit / 2)
  let advRes := advanced_search kw sem ft "relevance" (limit - mlRes.length)
  let uniq := deduplicate_results (mlRes ++ advRes)
  ⟨query, uniq.length, uniq.take limit⟩

theorem collectHits_mem (db : String → Bool) (ids : List String) (minSim : ℚ) (topK : ℕ) :
    ∀ (pairs : List (ℚ × ℕ)) (acc : List (String × ℚ)) (r : String × ℚ),
      r ∈ collectHits db ids minSim topK pairs acc →
      r ∈ acc ∨ (minSim ≤ r.2 ∧ r.1 ∈ ids) := by
  intro pairs
  induction pairs with
  | nil =>
    intro acc r h
    left
    simpa [collectHits] using h
  | cons p rest ih =>
    intro acc r h
    obtain ⟨s, i⟩ := p
    rw [collectHits] at h
    by_cases h1 : s < minSim
    · rw [if_pos h1] at h
      exact ih acc r h
    · rw [if_neg h1] at h
      by_cases h2 : i < ids.length
      · rw [dif_pos h2] at h
        by_cases h3 : db (ids.get ⟨i, h2⟩) = true
        · rw [if_pos h3] at h
          by_cases h4 : topK ≤ (acc ++ [(ids.get ⟨i, h2⟩, s)]).length
          · rw [if_pos h4] at h
            rcases List.mem_append.mp h with h5 | h5
            · exact Or.inl h5
            · rw [List.mem_singleton.mp h5]
              exact Or.inr ⟨not_lt.mp h1, List.get_mem _ _ _⟩
          · rw [if_neg h4] at h
            rcases ih _ r h with h5 | h5
            · rcases List.mem_append.mp h5 with h6 | h6
              · exact Or.inl h6
              · rw [List.mem_singleton.mp h6]
                exact Or.inr ⟨not_lt.mp h1, List.get_mem _ _ _⟩
            · exact Or.inr h5
        · rw [if_neg h3] at h
          exact ih acc r h
      · rw [dif_neg h2] at h
        exact ih acc r h

/-- C4: every result the embedding strategy's FAISS path emits has cosine
similarity at least the resolved minimum-similarity threshold (below-threshold
candidates are discarded before they can appear), and the resolved default
threshold is 0.7. -/
theorem C4_threshold_enforced (db : String → Bool) (st : Stored) (qv : List ℚ)
    (mOpt : Option ℚ) (k : ℕ) :
    resolveMinSim none = 7/10 ∧
    ∀ r ∈ find_similar_questions db st qv mOpt k, resolveMinSim mOpt ≤ r.2 := by
  refine ⟨rfl, ?_⟩
  intro r hr
  rcases collectHits_mem db st.ids (resolveMinSim mOpt) k _ [] r hr with h | h
  · simp at h
  · exact h.1

/-- Witness for C4: a one-vector index where the query matches with
similarity 1 under threshold 1. -/
theorem C4_threshold_enforced_witness :
    ("q1", (1 : ℚ)) ∈ find_similar_questions (fun _ => true)
        ⟨[[1, 0]], ["q1"]⟩ [1, 0] (some 1) 5 ∧
    resolveMinSim (some 1) ≤ ("q1", (1 : ℚ)).2 := by
  refine ⟨by norm_num [find_similar_questions, collectHits, faissSearch, dot, resolveMinSim,
      List.insertionSort, List.orderedInsert], ?_⟩
  exact (C4_threshold_enforced (fun _ => true) ⟨[[1, 0]], ["q1"]⟩ [1, 0] (some 1) 5).2
    ("q1", 1) (by norm_num [find_similar_questions, collectHits, faissSearch, dot, resolveMinSim,
      List.insertionSort, List.orderedInsert])

/-- C3 counterexample: a persisted index with two vectors but a single stored
id is accepted unchanged by `build_faiss_index` with `force_rebuild = false`
(no length validation, no rebuild — the forced rebuild would produce a
different index), and a query served from it returns a result. -/
theorem C3_counterexample :
    build_faiss_index (fun _ => [(1 : ℚ), 0]) false
        (some ⟨[[1, 0], [0, 1]], ["a"]⟩) [("q1", "text")]
      = some ⟨[[1, 0], [0, 1]], ["a"]⟩ ∧
    (Stored.mk [[1, 0], [0, 1]] ["a"]).ids.length
      ≠ (Stored.mk [[1, 0], [0, 1]] ["a"]).vectors.length ∧
    build_faiss_index (fun _ => [(1 : ℚ), 0]) true
        (some ⟨[[1, 0], [0, 1]], ["a"]⟩) [("q1", "text")]
      ≠ some ⟨[[1, 0], [0, 1]], ["a"]⟩ ∧
    find_similar_questions (fun _ => true) ⟨[[1, 0], [0, 1]], ["a"]⟩ [1, 0] (some 1) 10
      = [("a", 1)] :=
  ⟨rfl, by decide, by decide, by norm_num [find_similar_questions, collectHits, faissSearch, dot, resolveMinSim,
      List.insertionSort, List.orderedInsert]⟩

/-- C3 amended: loading performs no length validation — with
`force_rebuild = false` and readable files the persisted index is returned
unchanged (and served) even when the id-list length differs from the vector
count; the only mitigation is the per-result guard: every result the search
emits names an id of the stored id list.  A rebuild is triggered only by
`force_rebuild = true` or unreadable/missing files. -/
theorem C3_load_accepts_mismatch (embed : String → List ℚ) (d : Stored)
    (corpus : List (String × String)) (db : String → Bool) (st : Stored) (qv : List ℚ)
    (mOpt : Option ℚ) (k : ℕ) :
    build_faiss_index embed false (some d) corpus = some d ∧
    ∀ r ∈ find_similar_questions db st qv mOpt k, r.1 ∈ st.ids := by
  refine ⟨rfl, ?_⟩
  intro r hr
  rcases collectHits_mem db st.ids (resolveMinSim mOpt) k _ [] r hr with h | h
  · simp at h
  · exact h.2

/-- Witness for the amended C3 at the mismatched two-vector index. -/
theorem C3_load_accepts_mismatch_witness :
    build_faiss_index (fun _ => [(1 : ℚ), 0]) false
        (some ⟨[[1, 0], [0, 1]], ["a"]⟩) [("q1", "text")]
      = some ⟨[[1, 0], [0, 1]], ["a"]⟩ ∧
    ("a", (1 : ℚ)).1 ∈ (Stored.mk [[1, 0], [0, 1]] ["a"]).ids := by
  obtain ⟨h1, h2⟩ := C3_load_accepts_mismatch (fun _ => [(1 : ℚ), 0])
    ⟨[[1, 0], [0, 1]], ["a"]⟩ [("q1", "text")] (fun _ => true)
    ⟨[[1, 0], [0, 1]], ["a"]⟩ [1, 0] (some 1) 10
  exact ⟨h1, h2 ("a", 1) (by norm_num [find_similar_questions, collectHits, faissSearch, dot, resolveMinSim,
      List.insertionSort, List.orderedInsert])⟩

/-- C5 counterexample: with the fallback (degraded) TF-IDF vector serving
exactly as well as the model embedding, the degraded-mode pipeline produces
the same similarity score (1, not strictly reduced) as the normal-mode
pipeline — no degradation factor below 1.0 is ever applied — and after
`_calculate_final_scores` the equally-scored degraded-first candidate list
keeps the degraded result ranked first rather than below its non-degraded
twin. -/
theorem C5_counterexample :
    embeddingPipelineScores false [(1 : ℚ), 0] [(1 : ℚ), 0] (fun _ => true)
        ⟨[[1, 0]], ["q1"]⟩ (some 1) 5
      = [("q1", 1)] ∧
    embeddingPipelineScores true [(1 : ℚ), 0] [(1 : ℚ), 0] (fun _ => true)
        ⟨[[1, 0]], ["q1"]⟩ (some 1) 5
      = [("q1", 1)] ∧
    calculate_final_scores "how to pray"
        [⟨"qDeg", 1, "", "one two three", 0⟩, ⟨"qNorm", 1, "", "one two three", 0⟩]
      = [⟨"qDeg", 1, "", "one two three", 6/5⟩, ⟨"qNorm", 1, "", "one two three", 6/5⟩] := by
  have hm1 : mlFinalScore "how to pray" ⟨"qDeg", 1, "", "one two three", 0⟩ = 6/5 := by
    unfold mlFinalScore lengthFactor
    rw [show sourceFactor "" = 1 from rfl, show pyWordCount "how to pray" = 3 from rfl,
      show pyWordCount "one two three" = 3 from rfl]
    norm_num
  have hm2 : mlFinalScore "how to pray" ⟨"qNorm", 1, "", "one two three", 0⟩ = 6/5 := by
    unfold mlFinalScore lengthFactor
    rw [show sourceFactor "" = 1 from rfl, show pyWordCount "how to pray" = 3 from rfl,
      show pyWordCount "one two three" = 3 from rfl]
    norm_num
  refine ⟨?_, ?_, ?_⟩
  · norm_num [embeddingPipelineScores, get_sentence_embedding, find_similar_questions,
      collectHits, faissSearch, dot, resolveMinSim, List.insertionSort, List.orderedInsert]
  · norm_num [embeddingPipelineScores, get_sentence_embedding, find_similar_questions,
      collectHits, faissSearch, dot, resolveMinSim, List.insertionSort, List.orderedInsert]
  · unfold calculate_final_scores
    rw [List.map_cons, List.map_cons, List.map_nil]
    simp only [hm1, hm2]
    norm_num [List.insertionSort, List.orderedInsert]

/-- C5 amended: the code applies no degradation factor in fallback mode —
the degraded pipeline is exactly the normal search run on the fallback
vector, a degraded run and a normal run whose embeddings coincide produce
identical score lists (so equally-relevant degraded results tie instead of
ranking strictly lower), and degraded-mode scores face only the same
minimum-similarity filter as normal ones. -/
theorem C5_no_degradation_factor (m t : List ℚ) (db : String → Bool) (st : Stored)
    (mOpt : Option ℚ) (k : ℕ) :
    embeddingPipelineScores false m t db st mOpt k = find_similar_questions db st t mOpt k ∧
    embeddingPipelineScores false m t db st mOpt k
      = embeddingPipelineScores true t m db st mOpt k ∧
    ∀ r ∈ embeddingPipelineScores false m t db st mOpt k, resolveMinSim mOpt ≤ r.2 := by
  refine ⟨rfl, rfl, ?_⟩
  intro r hr
  rcases collectHits_mem db st.ids (resolveMinSim mOpt) k _ [] r hr with h | h
  · simp at h
  · exact h.1

/-- Witness for the amended C5: concrete degraded run matching the normal
run, with its sole result passing the threshold. -/
theorem C5_no_degradation_factor_witness :
    embeddingPipelineScores false [(1 : ℚ), 0] [(1 : ℚ), 0] (fun _ => true)
        ⟨[[1, 0]], ["q1"]⟩ (some 1) 5
      = find_similar_questions (fun _ => true) ⟨[[1, 0]], ["q1"]⟩ [(1 : ℚ), 0] (some 1) 5 ∧
    resolveMinSim (some 1) ≤ ("q1", (1 : ℚ)).2 := by
  obtain ⟨h1, _, h3⟩ := C5_no_degradation_factor [(1 : ℚ), 0] [(1 : ℚ), 0] (fun _ => true)
    ⟨[[1, 0]], ["q1"]⟩ (some 1) 5
  refine ⟨h1, h3 ("q1", 1) ?_⟩
  norm_num [embeddingPipelineScores, get_sentence_embedding, find_similar_questions,
    collectHits, faissSearch, dot, resolveMinSim, List.insertionSort, List.orderedInsert]

/-- C8: every candidate processed by `_calculate_final_scores` gets as final
score its base similarity times the source factor times exactly
`0.8 + 0.4 * (min(query_words, answer_words) / max(query_words, answer_words))`,
and whenever query or answer has at least one word this length factor lies in
[0.8, 1.2]. -/
theorem C8_length_similarity_factor (query : String) (cands : List MLCand) :
    (∀ c ∈ calculate_final_scores query cands,
      c.final = c.sim * sourceFactor c.source *
        ((4 : ℚ)/5 + (2 : ℚ)/5 *
          ((min (pyWordCount query) (pyWordCount c.answer) : ℚ)
            / (max (pyWordCount query) (pyWordCount c.answer) : ℚ)))) ∧
    ∀ answer : String, 0 < max (pyWordCount query) (pyWordCount answer) →
      (4 : ℚ)/5 ≤ lengthFactor query answer ∧ lengthFactor query answer ≤ 6/5 := by
  constructor
  · intro c hc
    have hc2 : c ∈ (cands.map (fun c => { c with final := mlFinalScore query c })) :=
      (List.perm_insertionSort _ _).mem_iff.mp hc
    obtain ⟨d, _, he⟩ := List.mem_map.mp hc2
    subst he
    simp only [mlFinalScore, lengthFactor]
  · intro answer h
    have hMpos : (0 : ℚ) < (max (pyWordCount query) (pyWordCount answer) : ℚ) := by
      exact_mod_cast h
    have hr0 : (0 : ℚ) ≤ (min (pyWordCount query) (pyWordCount answer) : ℚ)
        / (max (pyWordCount query) (pyWordCount answer) : ℚ) := by
      apply div_nonneg _ (le_of_lt hMpos)
      exact_mod_cast Nat.zero_le _
    have hr1 : (min (pyWordCount query) (pyWordCount answer) : ℚ)
        / (max (pyWordCount query) (pyWordCount answer) : ℚ) ≤ 1 := by
      rw [div_le_one hMpos]
      exact_mod_cast min_le_max
    unfold lengthFactor
    constructor
    · linarith
    · linarith

/-- Witness for C8: a three-word query against a three-word answer yields a
length factor of exactly 1.2 and a final score of base × source × 1.2. -/
theorem C8_length_similarity_factor_witness :
    (⟨"q1", (1 : ℚ), "", "one two three", (6 : ℚ)/5⟩ : MLCand).final
      = (⟨"q1", (1 : ℚ), "", "one two three", (6 : ℚ)/5⟩ : MLCand).sim
        * sourceFactor (⟨"q1", (1 : ℚ), "", "one two three", (6 : ℚ)/5⟩ : MLCand).source
        * ((4 : ℚ)/5 + (2 : ℚ)/5 *
          ((min (pyWordCount "how to pray")
              (pyWordCount (⟨"q1", (1 : ℚ), "", "one two three", (6 : ℚ)/5⟩ : MLCand).answer) : ℚ)
            / (max (pyWordCount "how to pray")
              (pyWordCount
                (⟨"q1", (1 : ℚ), "", "one two three", (6 : ℚ)/5⟩ : MLCand).answer) : ℚ))) ∧
    (4 : ℚ)/5 ≤ lengthFactor "how to pray" "one two three" := by
  have hm : mlFinalScore "how to pray" ⟨"q1", 1, "", "one two three", 0⟩ = 6/5 := by
    unfold mlFinalScore lengthFactor
    rw [show sourceFactor "" = 1 from rfl, show pyWordCount "how to pray" = 3 from rfl,
      show pyWordCount "one two three" = 3 from rfl]
    norm_num
  constructor
  · apply (C8_length_similarity_factor "how to pray" [⟨"q1", 1, "", "one two three", 0⟩]).1
      ⟨"q1", (1 : ℚ), "", "one two three", (6 : ℚ)/5⟩
    unfold calculate_final_scores
    rw [List.map_cons, List.map_nil]
    simp only [hm]
    simp [List.insertionSort, List.orderedInsert]
  · exact ((C8_length_similarity_factor "how to pray" []).2 "one two three" (by decide)).1

theorem mem_keywordIndexIds (docs : List (String × List String)) (token id : String) :
    id ∈ keywordIndexIds docs token
      ↔ ∃ toks, (id, toks) ∈ docs ∧ token ∈ extract_keywords toks := by
  unfold keywordIndexIds
  rw [List.mem_map]
  constructor
  · rintro ⟨d, hd, rfl⟩
    have h2 := List.mem_filter.mp hd
    exact ⟨d.2, by simpa using h2.1, by simpa using h2.2⟩
  · rintro ⟨toks, hmem, htok⟩
    exact ⟨(id, toks), List.mem_filter.mpr ⟨hmem, by simpa using htok⟩, rfl⟩

theorem mem_foldl_keyword_inter (docs : List (String × List String)) :
    ∀ (rest : List String) (init : List String) (id : String),
      id ∈ rest.foldl
          (fun acc k2 => acc.filter (fun x => x ∈ keywordIndexIds docs (pyLower k2))) init
        ↔ id ∈ init ∧ ∀ k ∈ rest, id ∈ keywordIndexIds docs (pyLower k) := by
  intro rest
  induction rest with
  | nil => intro init id; simp
  | cons k rest ih =>
    intro init id
    rw [List.foldl_cons, ih, List.mem_filter]
    simp only [decide_eq_true_eq, List.mem_cons]
    constructor
    · rintro ⟨⟨h1, h2⟩, h3⟩
      refine ⟨h1, fun k2 hk2 => ?_⟩
      rcases hk2 with h | h
      · exact h ▸ h2
      · exact h3 k2 h
    · rintro ⟨h1, h2⟩
      exact ⟨⟨h1, h2 k (Or.inl rfl)⟩, fun k2 hk2 => h2 k2 (Or.inr hk2)⟩

/-- C7 amended: `search_by_keywords` with no keywords returns the empty set;
with keywords it returns exactly the ids lying in every per-keyword
(lower-cased) index set; and a token's index set consists exactly of the
records whose first 20 question tokens longer than 3 characters contain the
token — not of all records whose normalized question tokens contain it. -/
theorem C7_keyword_lookup (docs : List (String × List String)) (k0 : String)
    (rest : List String) (id token : String) :
    search_by_keywords docs [] = [] ∧
    (id ∈ search_by_keywords docs (k0 :: rest)
      ↔ id ∈ keywordIndexIds docs (pyLower k0) ∧
        ∀ k ∈ rest, id ∈ keywordIndexIds docs (pyLower k)) ∧
    (id ∈ keywordIndexIds docs token
      ↔ ∃ toks, (id, toks) ∈ docs ∧ token ∈ extract_keywords toks) := by
  refine ⟨rfl, ?_, mem_keywordIndexIds docs token id⟩
  unfold search_by_keywords
  exact mem_foldl_keyword_inter docs rest (keywordIndexIds docs (pyLower k0)) id

/-- Witness for the amended C7: one record whose tokens include `"prayer"`
among its first 20 long tokens is found by `lookup ["prayer"]`. -/
theorem C7_keyword_lookup_witness :
    search_by_keywords [("r1", ["prayer", "time"])] [] = [] ∧
    ("r1" ∈ search_by_keywords [("r1", ["prayer", "time"])] ["prayer"]) := by
  obtain ⟨h1, h2, h3⟩ := C7_keyword_lookup [("r1", ["prayer", "time"])] "prayer" [] "r1" "prayer"
  refine ⟨h1, h2.mpr ⟨?_, by simp⟩⟩
  exact h3.mpr ⟨["prayer", "time"], by simp, by decide⟩

/-- C7 counterexample: a record whose normalized question tokens contain
`"prayer"` only after 21 other long tokens is not returned by
`lookup ["prayer"]` — the keyword extraction caps at the first 20 tokens of
length > 3, so the lookup is not "exactly the records whose normalized
question tokens include the keyword". -/
theorem C7_counterexample :
    search_by_keywords
        [("r1", (List.range 21).map (fun i => "word" ++ toString i) ++ ["prayer"])]
        ["prayer"] = [] ∧
    "prayer" ∈ (List.range 21).map (fun i => "word" ++ toString i) ++ ["prayer"] := by
  constructor
  · decide
  · decide

/-- C9: a failure inside any single strategy contributes exactly what an
empty-result strategy contributes (the other strategies' fused results are
unaffected); even with every strategy failing, `search_knowledge_base`
returns the well-formed empty response rather than raising; and the response
never carries more than `limit` results. -/
theorem C9_strategy_isolation (q e1 e2 e3 e4 : String)
    (kw sem ft ml : Except String (List SCand)) (sb : String) (lim : ℕ) :
    advanced_search (.error e1) sem ft sb lim = advanced_search (.ok []) sem ft sb lim ∧
    advanced_search kw (.error e2) ft sb lim = advanced_search kw (.ok []) ft sb lim ∧
    advanced_search kw sem (.error e3) sb lim = advanced_search kw sem (.ok []) sb lim ∧
    search_knowledge_base q (.error e1) (.error e2) (.error e3) (.error e4) lim
      = ⟨q, 0, []⟩ ∧
    (search_knowledge_base q ml kw sem ft lim).results.length ≤ lim := by
  refine ⟨rfl, rfl, rfl, ?_, ?_⟩
  · simp [search_knowledge_base, advanced_search, strategyCaught, deduplicate_and_score,
      sort_results, deduplicate_results, dedupResultsAux]
  · simp only [search_knowledge_base]
    rw [List.length_take]
    exact min_le_left _ _

/-- C10: autocomplete returns the empty list for partial queries shorter
than 3 characters, never more than 10 suggestions, and the empty list when
the database query fails. -/
theorem C10_suggestions (pq : String) (qs : List String) (f : Bool) :
    (pq.length < 3 → get_question_suggestions pq qs f = []) ∧
    (get_question_suggestions pq qs f).length ≤ 10 ∧
    get_question_suggestions pq qs true = [] := by
  refine ⟨?_, ?_, ?_⟩
  · intro h
    unfold get_question_suggestions
    rw [if_pos h]
  · unfold get_question_suggestions
    split_ifs <;> simp [List.length_take]
  · unfold get_question_suggestions
    split_ifs with h1 h2
    · rfl
    · rfl
    · exact absurd rfl h2

/-- Witness for C10 at a two-character partial query. -/
theorem C10_suggestions_witness :
    get_question_suggestions "ab" ["a question"] false = [] ∧
    (get_question_suggestions "ab" ["a question"] false).length ≤ 10 :=
  ⟨(C10_suggestions "ab" ["a question"] false).1 (by decide),
   (C10_suggestions "ab" ["a question"] false).2.1⟩
